import Mathlib

/-!
DU-INO library: MCP4922 DAC driver and user-interface shell

A shallow embedding of `src/du-ino_mcp4922.cpp` and `src/du-ino_interface.cpp`.

Every call the driver makes on a collaborator (digital line, serial bus, display,
encoder, application hook) is recorded as an event; a member function is embedded
as the list of events it emits (DAC driver) or as a transformer of the shell's
world (interface shell).  Machine integers are naturals reduced modulo `2 ^ w`
at every store into a `uintw_t` object.
-/

/-! ## Collaborators of the DAC driver -/

/-- Logic level written to a digital line (`LOW`, `HIGH`). -/
inductive Level
  | LOW
  | HIGH
  deriving DecidableEq

/-- Second argument of `pinMode`. -/
inductive PinMode
  | INPUT
  | OUTPUT
  | INPUT_PULLUP
  deriving DecidableEq

/-- Argument of `SPI.setBitOrder`. -/
inductive BitOrder
  | LSBFIRST
  | MSBFIRST
  deriving DecidableEq

/-- Argument of `SPI.setDataMode`. -/
inductive DataMode
  | SPI_MODE0
  | SPI_MODE1
  | SPI_MODE2
  | SPI_MODE3
  deriving DecidableEq

/-- Argument of `SPI.setClockDivider`. -/
inductive ClockDivider
  | SPI_CLOCK_DIV2
  | SPI_CLOCK_DIV4
  | SPI_CLOCK_DIV8
  | SPI_CLOCK_DIV16
  | SPI_CLOCK_DIV32
  | SPI_CLOCK_DIV64
  | SPI_CLOCK_DIV128
  deriving DecidableEq

/-- One call on the digital-line or serial-bus collaborator. -/
inductive HwEvent
  | pinMode (pin : Nat) (mode : PinMode)
  | digitalWrite (pin : Nat) (level : Level)
  | spiBegin
  | spiSetBitOrder (order : BitOrder)
  | spiSetDataMode (mode : DataMode)
  | spiSetClockDivider (div : ClockDivider)
  | spiTransfer (byte : Nat)
  deriving DecidableEq

/-- Modelled from the spec: the `Channel` enumeration of `du-ino_mcp4922.h`
(the header is not part of the sources); channel A selects 0 and channel B
selects 1 in bit 15 of the command word. -/
inductive Channel
  | A
  | B
  deriving DecidableEq

/-- Integer value of a channel enumerator. -/
def Channel.val : Channel → Nat
  | Channel.A => 0
  | Channel.B => 1

/-! ## DAC driver (`du-ino_mcp4922.cpp`) -/

/-- The driver object: its only member is the chip-select pin, a `uint8_t`. -/
structure DUINO_MCP4922 where
  pin_ss : Nat
  deriving DecidableEq

/-- Constructor `DUINO_MCP4922::DUINO_MCP4922(uint8_t ss)`: the object built and
the events emitted while building it. -/
def DUINO_MCP4922.new (ss : Nat) : DUINO_MCP4922 × List HwEvent :=
  let pin_ss := ss % 256
  -- configure chip select for output
  ({ pin_ss := pin_ss }, [HwEvent.pinMode pin_ss PinMode.OUTPUT])

/-- Member `DUINO_MCP4922::begin()`. -/
def DUINO_MCP4922.begin (d : DUINO_MCP4922) : List HwEvent :=
  [ -- hold chip deselect
    HwEvent.digitalWrite d.pin_ss Level.HIGH,
    -- configure SPI
    HwEvent.spiBegin,
    HwEvent.spiSetBitOrder BitOrder.MSBFIRST,
    HwEvent.spiSetDataMode DataMode.SPI_MODE0,
    HwEvent.spiSetClockDivider ClockDivider.SPI_CLOCK_DIV2 ]

/-- Value of the local `uint16_t data` of `DUINO_MCP4922::output` after its
first two statements.  `channel` is the integer value of the selector; the shift
and the OR are done in `int`/`unsigned` width (at least 16 bits) and the result
is cut to 16 bits when stored back into `data`. -/
def DUINO_MCP4922.output_data (channel data : Nat) : Nat :=
  let data := data % 65536
  -- truncate to 12 bits
  let data := (data &&& 0xfff) % 65536
  -- add control bits
  let data := (data ||| ((channel <<< 15) ||| 0x7000)) % 65536
  data

/-- Member `DUINO_MCP4922::output(Channel channel, uint16_t data)`; the argument
of `SPI.transfer` is a `uint8_t`. -/
def DUINO_MCP4922.output (d : DUINO_MCP4922) (channel data : Nat) : List HwEvent :=
  let data := DUINO_MCP4922.output_data channel data
  [ -- chip select
    HwEvent.digitalWrite d.pin_ss Level.LOW,
    -- send command
    HwEvent.spiTransfer (((data &&& 0xff00) >>> 8) % 256),
    HwEvent.spiTransfer ((data &&& 0xff) % 256),
    -- chip deselect
    HwEvent.digitalWrite d.pin_ss Level.HIGH ]

/-! ## Observations on an event list -/

/-- Bytes handed to `SPI.transfer`, oldest first. -/
def transfers : List HwEvent → List Nat
  | [] => []
  | HwEvent.spiTransfer b :: es => b :: transfers es
  | _ :: es => transfers es

/-- Level of line `pin` after the events, when it was `l` before them: only a
`digitalWrite` on that pin changes it. -/
def lineLevel (pin : Nat) : Level → List HwEvent → Level
  | l, [] => l
  | l, HwEvent.digitalWrite p v :: es => lineLevel pin (if p = pin then v else l) es
  | l, _ :: es => lineLevel pin l es

/-- Level of line `pin` at the moment of each byte transfer, oldest first. -/
def levelsAtTransfers (pin : Nat) : Level → List HwEvent → List Level
  | _, [] => []
  | l, HwEvent.digitalWrite p v :: es => levelsAtTransfers pin (if p = pin then v else l) es
  | l, HwEvent.spiTransfer _ :: es => l :: levelsAtTransfers pin l es
  | l, _ :: es => levelsAtTransfers pin l es

/-- Pins on which the events write a level, oldest first. -/
def writtenPins : List HwEvent → List Nat
  | [] => []
  | HwEvent.digitalWrite p _ :: es => p :: writtenPins es
  | _ :: es => writtenPins es

/-! ## Interface shell (`du-ino_interface.cpp`) -/

/-- One call made by the interface shell numbered `obj` on its display, its
encoder or one of its two hooks, or a call a hook body makes outside the shell. -/
inductive Event
  | display_begin (obj : Nat)
  | display_clear_display (obj : Nat)
  | display_display (obj : Nat)
  | setup (obj : Nat)
  | encoder_service (obj : Nat)
  | timer (obj : Nat)
  | user (tag : Nat)
  deriving DecidableEq

/-- True of the events that come from inside a hook body. -/
def Event.isUser : Event → Bool
  | Event.user _ => true
  | _ => false

/-- A statement of a hook body: a call outside the shell, or a call of one of
the two public members of a shell object. -/
inductive Call
  | user (tag : Nat)
  | begin (obj : Nat)
  | timer_isr (obj : Nat)
  deriving DecidableEq

/-- The concrete application: the bodies of the pure virtual hooks `setup()` and
`timer()` of each shell object.  A hook reads the application's own variables
`σ`, updates them, and then makes its calls in order. -/
structure App (σ : Type) where
  setup : Nat → σ → σ × List Call
  timer : Nat → σ → σ × List Call

/-- State of the program as far as the shell is concerned: the function-local
`static bool initialized` of `DUINO_Interface::begin` (one per program, shared by
every shell object), the events so far (oldest first), and the application's
own variables. -/
structure World (σ : Type) where
  initialized : Bool
  trace : List Event
  app : σ
  deriving DecidableEq

/-- State at program start: `static bool initialized = false`, nothing called yet. -/
def World.fresh {σ : Type} (s : σ) : World σ :=
  { initialized := false, trace := [], app := s }

/-- Record one call. -/
def World.emit {σ : Type} (w : World σ) (e : Event) : World σ :=
  { w with trace := w.trace ++ [e] }

/-- Invocation of a hook: the call is recorded, then the body runs (`run`
executes the calls the body makes). -/
def callHook {σ : Type} (run : List Call → World σ → Option (World σ))
    (body : σ → σ × List Call) (e : Event) (w : World σ) : Option (World σ) :=
  let w := w.emit e
  run (body w.app).2 { w with app := (body w.app).1 }

/-- Member `DUINO_Interface::begin()` of shell object `obj`. -/
def DUINO_Interface.begin {σ : Type} (run : List Call → World σ → Option (World σ))
    (app : App σ) (obj : Nat) (w : World σ) : Option (World σ) :=
  if !w.initialized then
    -- initialize display
    let w := w.emit (Event.display_begin obj)
    let w := w.emit (Event.display_clear_display obj)
    let w := w.emit (Event.display_display obj)
    match callHook run (app.setup obj) (Event.setup obj) w with
    | none => none
    | some w => some { w with initialized := true }
  else
    some w

/-- Member `DUINO_Interface::timer_isr()` of shell object `obj`. -/
def DUINO_Interface.timer_isr {σ : Type} (run : List Call → World σ → Option (World σ))
    (app : App σ) (obj : Nat) (w : World σ) : Option (World σ) :=
  let w := w.emit (Event.encoder_service obj)
  callHook run (app.timer obj) (Event.timer obj) w

/-- Execution of a list of calls; every call made, nested ones included, uses
one unit of `fuel`, and `none` means the fuel ran out. -/
def exec {σ : Type} (app : App σ) : Nat → List Call → World σ → Option (World σ)
  | _, [], w => some w
  | 0, _ :: _, _ => none
  | fuel + 1, c :: cs, w =>
    match (match c with
      | Call.user tag => some (w.emit (Event.user tag))
      | Call.begin obj => DUINO_Interface.begin (exec app fuel) app obj w
      | Call.timer_isr obj => DUINO_Interface.timer_isr (exec app fuel) app obj w) with
    | none => none
    | some w1 => exec app fuel cs w1

/-- The calls `f o₁`, `f o₂`, … made one after the other by the main program. -/
def seqCalls {σ : Type} (f : Nat → World σ → Option (World σ)) :
    List Nat → World σ → Option (World σ)
  | [], w => some w
  | o :: os, w =>
    match f o w with
    | none => none
    | some w1 => seqCalls f os w1

/-- Events of `k` ticks of shell `obj` whose timer hook makes no call. -/
def ticks (obj : Nat) : Nat → List Event
  | 0 => []
  | k + 1 => Event.encoder_service obj :: Event.timer obj :: ticks obj k

/-- An application whose hooks make no call at all. -/
def idleApp : App Unit :=
  { setup := fun _ s => (s, []), timer := fun _ s => (s, []) }

/-- An application whose `setup` hook calls `begin` of shell 0 again, once: the
hook keeps its own flag (`true` once it has run). -/
def reentrantApp : App Bool :=
  { setup := fun _ once => if once then (true, []) else (true, [Call.begin 0]),
    timer := fun _ s => (s, []) }

/-- An application whose `setup` hook calls `begin` of its own shell on every
invocation. -/
def loopingApp : App Unit :=
  { setup := fun obj s => (s, [Call.begin obj]), timer := fun _ s => (s, []) }

/-! ## Arithmetic of the command word -/

/-- The command word as a sum: channel bit, control pattern, 12-bit sample. -/
theorem output_data_eq_add (channel data : Nat) :
    DUINO_MCP4922.output_data channel data
      = (channel % 2) * 32768 + 28672 + data % 4096 := by
  unfold DUINO_MCP4922.output_data
  have h1 : (data % 65536 &&& 0xfff) = data % 4096 := by
    have := Nat.and_pow_two_sub_one_eq_mod (data % 65536) 12
    norm_num at this
    rw [this]
  have h2 : (channel <<< 15 ||| 0x7000) = 2 ^ 12 * (channel * 8 + 7) := by
    have := Nat.mul_add_lt_is_or (show 28672 < 2 ^ 15 by norm_num) channel
    rw [Nat.shiftLeft_eq, Nat.mul_comm channel, ← this]
    ring
  have h3 : (data % 4096 ||| 2 ^ 12 * (channel * 8 + 7))
      = 2 ^ 12 * (channel * 8 + 7) + data % 4096 := by
    rw [Nat.or_comm]
    exact (Nat.mul_add_lt_is_or (show data % 4096 < 2 ^ 12 by omega) _).symm
  simp only [h1, h2]
  rw [Nat.mod_eq_of_lt (show data % 4096 < 65536 by omega), h3]
  omega

/-- The command word fits in 16 bits. -/
theorem output_data_lt (channel data : Nat) :
    DUINO_MCP4922.output_data channel data < 65536 := by
  rw [output_data_eq_add]
  omega

/-- The word `(m << 15) | 0x7000 | (v & 0xFFF)` as a sum. -/
theorem word_formula_eq_add (m v : Nat) :
    (m <<< 15 ||| 0x7000 ||| (v &&& 0xFFF)) = m * 32768 + 28672 + v % 4096 := by
  have h1 : (v &&& 0xFFF) = v % 4096 := by
    have := Nat.and_pow_two_sub_one_eq_mod v 12
    norm_num at this
    exact this
  have h2 : (m <<< 15 ||| 0x7000) = 2 ^ 12 * (m * 8 + 7) := by
    have := Nat.mul_add_lt_is_or (show 28672 < 2 ^ 15 by norm_num) m
    rw [Nat.shiftLeft_eq, Nat.mul_comm m, ← this]
    ring
  rw [h1, h2, ← Nat.mul_add_lt_is_or (show v % 4096 < 2 ^ 12 by omega)]
  ring

/-- The first byte sent is bits 15-8 of a 16-bit word. -/
theorem high_byte_eq (w : Nat) (hw : w < 65536) : ((w &&& 0xff00) >>> 8) % 256 = w / 256 := by
  have h1 : (w &&& 0xff00) >>> 8 = (w >>> 8) &&& 0xff := by
    apply Nat.eq_of_testBit_eq
    intro j
    rw [show (0xff : Nat) = 0xff00 >>> 8 by decide]
    simp only [Nat.testBit_shiftRight, Nat.testBit_and]
  have h2 := Nat.and_pow_two_sub_one_eq_mod (w >>> 8) 8
  norm_num at h2
  rw [h1, h2, Nat.shiftRight_eq_div_pow]
  omega

/-- The second byte sent is bits 7-0 of the word. -/
theorem low_byte_eq (w : Nat) : (w &&& 0xff) % 256 = w % 256 := by
  have h2 := Nat.and_pow_two_sub_one_eq_mod w 8
  norm_num at h2
  rw [h2]
  omega

/-- The event list of `output`, with the two bytes written as quotient and
remainder of the command word. -/
theorem output_events (d : DUINO_MCP4922) (channel data : Nat) :
    d.output channel data =
      [HwEvent.digitalWrite d.pin_ss Level.LOW,
       HwEvent.spiTransfer (DUINO_MCP4922.output_data channel data / 256),
       HwEvent.spiTransfer (DUINO_MCP4922.output_data channel data % 256),
       HwEvent.digitalWrite d.pin_ss Level.HIGH] := by
  unfold DUINO_MCP4922.output
  simp only [high_byte_eq _ (output_data_lt channel data), low_byte_eq]

/-! ## DAC driver: the claims -/

/-- C1: for every channel `c` (A = 0, B = 1) and every sample `v`, the command
word built by `output` is `(c << 15) | 0x7000 | (v & 0xFFF)`: bits 11-0 are
`v mod 4096`, bit 15 is the channel selector, bits 14-12 are 111; (A, 0) gives
0x7000, (B, 4095) gives 0xFFFF, (A, 2048) gives 0x7800 and 4096 wraps to 0. -/
theorem C1_command_word (c : Channel) (v : Nat) :
    DUINO_MCP4922.output_data c.val v = (c.val <<< 15 ||| 0x7000 ||| (v &&& 0xFFF))
    ∧ DUINO_MCP4922.output_data c.val v % 4096 = v % 4096
    ∧ DUINO_MCP4922.output_data c.val v / 32768 = c.val
    ∧ DUINO_MCP4922.output_data c.val v / 4096 % 8 = 7
    ∧ DUINO_MCP4922.output_data Channel.A.val 0 = 0x7000
    ∧ DUINO_MCP4922.output_data Channel.B.val 4095 = 0xFFFF
    ∧ DUINO_MCP4922.output_data Channel.A.val 2048 = 0x7800
    ∧ DUINO_MCP4922.output_data c.val 4096 % 4096 = 0 := by
  have hc : c.val % 2 = c.val := by cases c <;> rfl
  refine ⟨?_, ?_, ?_, ?_, by decide, by decide, by decide, ?_⟩
  · rw [output_data_eq_add, word_formula_eq_add, hc]
  · rw [output_data_eq_add]; omega
  · rw [output_data_eq_add, hc]
    have : c.val < 2 := by cases c <;> decide
    omega
  · rw [output_data_eq_add]; omega
  · rw [output_data_eq_add]; omega

/-- C2: `output` makes exactly two byte transfers, first bits 15-8 of the
command word and then bits 7-0, and the two bytes put together
(`high << 8 | low`) are the command word. -/
theorem C2_two_transfers_high_then_low (d : DUINO_MCP4922) (c v : Nat) :
    transfers (d.output c v)
      = [DUINO_MCP4922.output_data c v / 256, DUINO_MCP4922.output_data c v % 256]
    ∧ (transfers (d.output c v)).length = 2
    ∧ DUINO_MCP4922.output_data c v / 256 < 256
    ∧ ((DUINO_MCP4922.output_data c v / 256) <<< 8 ||| DUINO_MCP4922.output_data c v % 256)
        = DUINO_MCP4922.output_data c v := by
  have hlt := output_data_lt c v
  refine ⟨by rw [output_events]; rfl, by rw [output_events]; rfl, by omega, ?_⟩
  rw [Nat.shiftLeft_eq, Nat.mul_comm,
    ← Nat.mul_add_lt_is_or (show DUINO_MCP4922.output_data c v % 256 < 2 ^ 8 by omega)]
  omega

/-- C3: the events of `output` are exactly: chip-select low, byte, byte,
chip-select high; only `pin_ss` is written, the line is low at both transfers
and high when the call returns, whatever its level on entry. -/
theorem C3_chip_select_discipline (d : DUINO_MCP4922) (c v : Nat) (entry : Level) :
    d.output c v =
      [HwEvent.digitalWrite d.pin_ss Level.LOW,
       HwEvent.spiTransfer (DUINO_MCP4922.output_data c v / 256),
       HwEvent.spiTransfer (DUINO_MCP4922.output_data c v % 256),
       HwEvent.digitalWrite d.pin_ss Level.HIGH]
    ∧ writtenPins (d.output c v) = [d.pin_ss, d.pin_ss]
    ∧ levelsAtTransfers d.pin_ss entry (d.output c v) = [Level.LOW, Level.LOW]
    ∧ lineLevel d.pin_ss entry (d.output c v) = Level.HIGH := by
  rw [output_events]
  simp [writtenPins, levelsAtTransfers, lineLevel]

/-- C6 (as the code has it): the constructor keeps `ss` (as a `uint8_t`) in
`pin_ss` and its only event is `pinMode(pin_ss, OUTPUT)`; it writes no level, so
the line keeps the level it had, and it is `begin` that drives it high. -/
theorem C6_constructor_configures_output_only (ss : Nat) (before : Level) :
    (DUINO_MCP4922.new ss).1.pin_ss = ss % 256
    ∧ (DUINO_MCP4922.new ss).2 = [HwEvent.pinMode (ss % 256) PinMode.OUTPUT]
    ∧ writtenPins (DUINO_MCP4922.new ss).2 = []
    ∧ lineLevel (ss % 256) before (DUINO_MCP4922.new ss).2 = before
    ∧ lineLevel (ss % 256) before
        ((DUINO_MCP4922.new ss).2 ++ (DUINO_MCP4922.new ss).1.begin) = Level.HIGH := by
  simp [DUINO_MCP4922.new, DUINO_MCP4922.begin, writtenPins, lineLevel]

/-- C6 (as stated) fails: constructing the driver on line 10 emits no write of
`HIGH` on that line, and a line that was low before is still low afterwards. -/
theorem C6_constructor_no_high_write :
    ¬ (HwEvent.digitalWrite 10 Level.HIGH ∈ (DUINO_MCP4922.new 10).2)
    ∧ lineLevel 10 Level.LOW (DUINO_MCP4922.new 10).2 ≠ Level.HIGH := by
  decide

/-- C8: `DUINO_MCP4922::begin` emits exactly: chip-select high, bus enable, bit
order MSB first, clock mode 0, clock divisor 2; it writes low on no line, makes
no byte transfer and leaves the chip-select line high. -/
theorem C8_begin_sequence (d : DUINO_MCP4922) (entry : Level) :
    d.begin =
      [HwEvent.digitalWrite d.pin_ss Level.HIGH,
       HwEvent.spiBegin,
       HwEvent.spiSetBitOrder BitOrder.MSBFIRST,
       HwEvent.spiSetDataMode DataMode.SPI_MODE0,
       HwEvent.spiSetClockDivider ClockDivider.SPI_CLOCK_DIV2]
    ∧ (∀ p, HwEvent.digitalWrite p Level.LOW ∉ d.begin)
    ∧ writtenPins d.begin = [d.pin_ss]
    ∧ transfers d.begin = []
    ∧ lineLevel d.pin_ss entry d.begin = Level.HIGH := by
  simp [DUINO_MCP4922.begin, writtenPins, transfers, lineLevel]

/-- C9: for every selector value `n` and sample `v`, `output` runs its whole
sequence and the command word is `((n << 15) mod 2^16) | 0x7000 | (v & 0xFFF)`:
bit 15 is `n mod 2`, bits 14-12 are 111, bits 11-0 are `v mod 4096`, and bits
14-0 are those of the word built for selector 0. -/
theorem C9_selector_truncated (d : DUINO_MCP4922) (n v : Nat) :
    d.output n v =
      [HwEvent.digitalWrite d.pin_ss Level.LOW,
       HwEvent.spiTransfer (DUINO_MCP4922.output_data n v / 256),
       HwEvent.spiTransfer (DUINO_MCP4922.output_data n v % 256),
       HwEvent.digitalWrite d.pin_ss Level.HIGH]
    ∧ DUINO_MCP4922.output_data n v
        = ((n <<< 15) % 2 ^ 16 ||| 0x7000 ||| (v &&& 0xFFF))
    ∧ DUINO_MCP4922.output_data n v / 32768 = n % 2
    ∧ DUINO_MCP4922.output_data n v / 4096 % 8 = 7
    ∧ DUINO_MCP4922.output_data n v % 4096 = v % 4096
    ∧ DUINO_MCP4922.output_data n v % 32768 = DUINO_MCP4922.output_data 0 v % 32768 := by
  have hs : (n <<< 15) % 2 ^ 16 = (n % 2) <<< 15 := by
    rw [Nat.shiftLeft_eq, Nat.shiftLeft_eq]
    omega
  refine ⟨output_events d n v, ?_, ?_, ?_, ?_, ?_⟩
  · rw [hs, output_data_eq_add, word_formula_eq_add]
  · rw [output_data_eq_add]; omega
  · rw [output_data_eq_add]; omega
  · rw [output_data_eq_add]; omega
  · rw [output_data_eq_add, output_data_eq_add]; omega

/-! ## Interface shell: execution lemmas -/

/-- With the latch set, `begin` returns at once and changes nothing. -/
theorem begin_latched {σ : Type} (run : List Call → World σ → Option (World σ))
    (app : App σ) (obj : Nat) (w : World σ) (hw : w.initialized = true) :
    DUINO_Interface.begin run app obj w = some w := by
  simp [DUINO_Interface.begin, hw]

/-- Any sequence of `begin` calls on a latched world changes nothing. -/
theorem seqCalls_begin_latched {σ : Type} (run : List Call → World σ → Option (World σ))
    (app : App σ) (os : List Nat) (w : World σ) (hw : w.initialized = true) :
    seqCalls (DUINO_Interface.begin run app) os w = some w := by
  induction os with
  | nil => rfl
  | cons o os ih => simp [seqCalls, begin_latched run app o w hw, ih]

/-- Calls outside the shell at the head of a call list are recorded one by one. -/
theorem exec_user_head {σ : Type} (app : App σ) (tags : List Nat) (rest : List Call) :
    ∀ (fuel : Nat) (w : World σ), tags.length ≤ fuel →
      exec app fuel (tags.map Call.user ++ rest) w
        = exec app (fuel - tags.length) rest
            { w with trace := w.trace ++ tags.map Event.user } := by
  induction tags with
  | nil => intro fuel w _; simp
  | cons t ts ih =>
    intro fuel w hf
    obtain ⟨f, rfl⟩ : ∃ f, fuel = f + 1 := ⟨fuel - 1, by simp at hf; omega⟩
    have hts : ts.length ≤ f := by simp at hf; omega
    simp only [List.map_cons, List.cons_append, exec, World.emit, List.length_cons,
      List.append_eq]
    rw [ih f _ hts]
    simp

/-- A call list that only calls outside the shell runs to its end. -/
theorem exec_user_only {σ : Type} (app : App σ) (tags : List Nat) (fuel : Nat) (w : World σ)
    (hf : tags.length ≤ fuel) :
    exec app fuel (tags.map Call.user) w
      = some { w with trace := w.trace ++ tags.map Event.user } := by
  have h := exec_user_head app tags [] fuel w hf
  simp only [List.append_nil] at h
  rw [h]
  cases (fuel - tags.length) <;> rfl

/-- First `begin` call when the `setup` hook only calls outside the shell. -/
theorem begin_unlatched {σ : Type} (app : App σ) (obj fuel : Nat) (w : World σ)
    (tags : List Nat) (hw : w.initialized = false)
    (hb : (app.setup obj w.app).2 = tags.map Call.user) (hf : tags.length ≤ fuel) :
    DUINO_Interface.begin (exec app fuel) app obj w
      = some { initialized := true,
               trace := w.trace ++ [Event.display_begin obj, Event.display_clear_display obj,
                 Event.display_display obj, Event.setup obj] ++ tags.map Event.user,
               app := (app.setup obj w.app).1 } := by
  simp only [DUINO_Interface.begin, hw, callHook, World.emit, Bool.not_false, if_true, hb]
  rw [exec_user_only app tags fuel _ hf]
  simp

/-- A sequence of `begin` calls, on whatever objects, does what its first call does. -/
theorem seqCalls_begin_first {σ : Type} (app : App σ) (obj fuel : Nat) (os : List Nat)
    (w : World σ) (tags : List Nat) (hw : w.initialized = false)
    (hb : (app.setup obj w.app).2 = tags.map Call.user) (hf : tags.length ≤ fuel) :
    seqCalls (DUINO_Interface.begin (exec app fuel) app) (obj :: os) w
      = some { initialized := true,
               trace := w.trace ++ [Event.display_begin obj, Event.display_clear_display obj,
                 Event.display_display obj, Event.setup obj] ++ tags.map Event.user,
               app := (app.setup obj w.app).1 } := by
  simp only [seqCalls, begin_unlatched app obj fuel w tags hw hb hf]
  exact seqCalls_begin_latched _ app os _ rfl

/-- Events recorded inside hook bodies are dropped by the filter on shell events. -/
theorem filter_user_events (tags : List Nat) :
    (tags.map Event.user).filter (fun e => !e.isUser) = [] := by
  induction tags with
  | nil => rfl
  | cons t ts ih => simp [Event.isUser]

/-- One `timer_isr` call when the `timer` hook only calls outside the shell. -/
theorem timer_isr_once {σ : Type} (app : App σ) (obj fuel : Nat) (w : World σ)
    (tags : List Nat) (hb : (app.timer obj w.app).2 = tags.map Call.user)
    (hf : tags.length ≤ fuel) :
    DUINO_Interface.timer_isr (exec app fuel) app obj w
      = some { w with
               trace := w.trace ++ [Event.encoder_service obj, Event.timer obj]
                 ++ tags.map Event.user,
               app := (app.timer obj w.app).1 } := by
  simp only [DUINO_Interface.timer_isr, callHook, World.emit, hb]
  rw [exec_user_only app tags fuel _ hf]
  simp

/-! ## Interface shell: the claims -/

/-- C4: on a freshly started program whose `setup` hook does not call back
into the shell, `N ≥ 1` calls of `begin` in a row leave exactly the events of one
call (display begin, clear, present, then the setup hook and what its body
calls), and one more call changes neither the events nor the state. -/
theorem C4_begin_idempotent {σ : Type} (app : App σ) (obj N fuel : Nat) (s : σ)
    (tags : List Nat) (hN : 1 ≤ N)
    (hb : (app.setup obj s).2 = tags.map Call.user) (hf : tags.length ≤ fuel) :
    seqCalls (DUINO_Interface.begin (exec app fuel) app) (List.replicate N obj) (World.fresh s)
      = some { initialized := true,
               trace := [Event.display_begin obj, Event.display_clear_display obj,
                 Event.display_display obj, Event.setup obj] ++ tags.map Event.user,
               app := (app.setup obj s).1 }
    ∧ seqCalls (DUINO_Interface.begin (exec app fuel) app) (List.replicate N obj) (World.fresh s)
      = DUINO_Interface.begin (exec app fuel) app obj (World.fresh s)
    ∧ seqCalls (DUINO_Interface.begin (exec app fuel) app) (List.replicate (N + 1) obj)
        (World.fresh s)
      = seqCalls (DUINO_Interface.begin (exec app fuel) app) (List.replicate N obj)
        (World.fresh s) := by
  obtain ⟨n, rfl⟩ : ∃ n, N = n + 1 := ⟨N - 1, by omega⟩
  have h1 := fun os => seqCalls_begin_first app obj fuel os (World.fresh s) tags rfl hb hf
  have h2 := begin_unlatched app obj fuel (World.fresh s) tags rfl hb hf
  refine ⟨?_, ?_, ?_⟩
  · rw [List.replicate_succ, h1]; simp [World.fresh]
  · rw [List.replicate_succ, h1, h2]
  · rw [List.replicate_succ, h1, List.replicate_succ, h1]

/-- C4 at three calls of `begin` on shell 0 of the application with empty hooks. -/
theorem C4_begin_idempotent_witness :
    seqCalls (DUINO_Interface.begin (exec idleApp 0) idleApp) (List.replicate 3 0)
        (World.fresh ())
      = some { initialized := true,
               trace := [Event.display_begin 0, Event.display_clear_display 0,
                 Event.display_display 0, Event.setup 0] ++ ([] : List Nat).map Event.user,
               app := (idleApp.setup 0 ()).1 }
    ∧ seqCalls (DUINO_Interface.begin (exec idleApp 0) idleApp) (List.replicate 3 0)
        (World.fresh ())
      = DUINO_Interface.begin (exec idleApp 0) idleApp 0 (World.fresh ())
    ∧ seqCalls (DUINO_Interface.begin (exec idleApp 0) idleApp) (List.replicate (3 + 1) 0)
        (World.fresh ())
      = seqCalls (DUINO_Interface.begin (exec idleApp 0) idleApp) (List.replicate 3 0)
        (World.fresh ()) :=
  C4_begin_idempotent idleApp 0 3 0 () [] (by decide) rfl (by decide)

/-- C5: when the `timer` hook does not call back into the shell (its body
makes the outside calls `tags s` in application state `s`), every `timer_isr`
call records the encoder service, then the timer hook, then the hook body, and
`k` calls in a row return with the shell events (service, hook) repeated `k`
times appended to the trace, the latch untouched. -/
theorem C5_timer_isr_ticks {σ : Type} (app : App σ) (obj k fuel : Nat) (w : World σ)
    (tags : σ → List Nat)
    (hb : ∀ s, (app.timer obj s).2 = (tags s).map Call.user ∧ (tags s).length ≤ fuel) :
    DUINO_Interface.timer_isr (exec app fuel) app obj w
        = some { w with
                 trace := w.trace ++ [Event.encoder_service obj, Event.timer obj]
                   ++ (tags w.app).map Event.user,
                 app := (app.timer obj w.app).1 }
    ∧ (seqCalls (DUINO_Interface.timer_isr (exec app fuel) app) (List.replicate k obj) w).map
          (fun w1 => (w1.initialized, w1.trace.filter (fun e => !e.isUser)))
        = some (w.initialized, w.trace.filter (fun e => !e.isUser) ++ ticks obj k) := by
  constructor
  · exact timer_isr_once app obj fuel w (tags w.app) (hb w.app).1 (hb w.app).2
  · induction k generalizing w with
    | zero => simp [seqCalls, ticks]
    | succ k ih =>
      rw [List.replicate_succ]
      simp only [seqCalls,
        timer_isr_once app obj fuel w (tags w.app) (hb w.app).1 (hb w.app).2]
      rw [ih]
      simp [ticks, filter_user_events, Event.isUser]

/-- C5 at three ticks of shell 0 of the application with empty hooks. -/
theorem C5_timer_isr_ticks_witness :
    DUINO_Interface.timer_isr (exec idleApp 0) idleApp 0 (World.fresh ())
        = some { World.fresh () with
                 trace := (World.fresh ()).trace ++ [Event.encoder_service 0, Event.timer 0]
                   ++ ([] : List Nat).map Event.user,
                 app := (idleApp.timer 0 (World.fresh ()).app).1 }
    ∧ (seqCalls (DUINO_Interface.timer_isr (exec idleApp 0) idleApp) (List.replicate 3 0)
          (World.fresh ())).map
          (fun w1 => (w1.initialized, w1.trace.filter (fun e => !e.isUser)))
        = some ((World.fresh ()).initialized,
            (World.fresh ()).trace.filter (fun e => !e.isUser) ++ ticks 0 3) :=
  C5_timer_isr_ticks idleApp 0 3 0 (World.fresh ()) (fun _ => [])
    (fun _ => ⟨rfl, Nat.le_refl 0⟩)

/-- C10: in a first `begin` call the `setup` hook is entered with the latch
still unset, and the latch is set on whatever the hook returns.  So when the
hook body, after outside calls `pre`, calls `begin` of shell `obj2` (whose own
hook run then only makes the outside calls `inner`) and ends with outside calls
`post`, the nested call is no no-op: the display begin/clear/present sequence
and the setup hook are recorded a second time, before `begin` returns with the
latch set. -/
theorem C10_latch_set_after_setup {σ : Type} (app : App σ) (obj obj2 fuel : Nat)
    (w : World σ) (pre inner post : List Nat) (hw : w.initialized = false)
    (hb : (app.setup obj w.app).2
      = pre.map Call.user ++ Call.begin obj2 :: post.map Call.user)
    (hi : (app.setup obj2 (app.setup obj w.app).1).2 = inner.map Call.user)
    (hf1 : pre.length + 1 + inner.length ≤ fuel)
    (hf2 : pre.length + 1 + post.length ≤ fuel) :
    DUINO_Interface.begin (exec app fuel) app obj w
      = (callHook (exec app fuel) (app.setup obj) (Event.setup obj)
          { w with trace := w.trace ++ [Event.display_begin obj,
              Event.display_clear_display obj, Event.display_display obj] }).map
          (fun w1 => { w1 with initialized := true })
    ∧ ({ w with trace := w.trace ++ [Event.display_begin obj,
          Event.display_clear_display obj, Event.display_display obj] } : World σ).initialized
        = false
    ∧ DUINO_Interface.begin (exec app fuel) app obj w
      = some { initialized := true,
               trace := w.trace
                 ++ [Event.display_begin obj, Event.display_clear_display obj,
                   Event.display_display obj, Event.setup obj]
                 ++ pre.map Event.user
                 ++ [Event.display_begin obj2, Event.display_clear_display obj2,
                   Event.display_display obj2, Event.setup obj2]
                 ++ inner.map Event.user
                 ++ post.map Event.user,
               app := (app.setup obj2 (app.setup obj w.app).1).1 } := by
  refine ⟨?_, hw, ?_⟩
  · simp only [DUINO_Interface.begin, hw, World.emit, Bool.not_false, if_true,
      List.append_assoc, List.cons_append, List.nil_append]
    cases callHook (exec app fuel) (app.setup obj) (Event.setup obj) _ <;> rfl
  · obtain ⟨f, hfuel⟩ : ∃ f, fuel - pre.length = f + 1 := ⟨fuel - pre.length - 1, by omega⟩
    simp only [DUINO_Interface.begin, hw, callHook, World.emit, Bool.not_false, if_true, hb]
    rw [exec_user_head app pre _ fuel _ (by omega), hfuel]
    simp only [exec]
    rw [begin_unlatched app obj2 f
      { initialized := false, trace := _, app := (app.setup obj w.app).1 } inner rfl hi
      (by omega)]
    simp only []
    rw [exec_user_only app post f _ (by omega)]
    simp

/-- C10 at the application whose setup hook calls `begin` again, once. -/
theorem C10_latch_set_after_setup_witness :
    DUINO_Interface.begin (exec reentrantApp 1) reentrantApp 0 (World.fresh false)
      = (callHook (exec reentrantApp 1) (reentrantApp.setup 0) (Event.setup 0)
          { World.fresh false with trace := (World.fresh false).trace ++ [Event.display_begin 0,
              Event.display_clear_display 0, Event.display_display 0] }).map
          (fun w1 => { w1 with initialized := true })
    ∧ ({ World.fresh false with trace := (World.fresh false).trace ++ [Event.display_begin 0,
          Event.display_clear_display 0, Event.display_display 0] } : World Bool).initialized
        = false
    ∧ DUINO_Interface.begin (exec reentrantApp 1) reentrantApp 0 (World.fresh false)
      = some { initialized := true,
               trace := (World.fresh false).trace
                 ++ [Event.display_begin 0, Event.display_clear_display 0,
                   Event.display_display 0, Event.setup 0]
                 ++ ([] : List Nat).map Event.user
                 ++ [Event.display_begin 0, Event.display_clear_display 0,
                   Event.display_display 0, Event.setup 0]
                 ++ ([] : List Nat).map Event.user
                 ++ ([] : List Nat).map Event.user,
               app := (reentrantApp.setup 0
                 (reentrantApp.setup 0 (World.fresh false).app).1).1 } :=
  C10_latch_set_after_setup reentrantApp 0 0 1 (World.fresh false) [] [] [] rfl rfl rfl
    (by decide) (by decide)

/-- A `setup` hook that calls `begin` of its own shell on every invocation never
lets a `begin` call made with the latch unset return, whatever the fuel. -/
theorem exec_looping_never_returns (obj fuel : Nat) :
    ∀ w : World Unit, w.initialized = false →
      exec loopingApp fuel [Call.begin obj] w = none := by
  have hs : ∀ s : Unit, loopingApp.setup obj s = (s, [Call.begin obj]) := fun _ => rfl
  induction fuel with
  | zero => intro w _; rfl
  | succ f ih =>
    intro w hw
    have hb : DUINO_Interface.begin (exec loopingApp f) loopingApp obj w = none := by
      simp only [DUINO_Interface.begin, hw, callHook, World.emit, Bool.not_false, if_true, hs]
      rw [ih]
      rfl
    simp only [exec, hb]
